import Mathlib

/-!
Shallow embedding of the batch-parallel trajectory-reconstruction driver
(`scripts/parallel_v2.py`, with `scripts/parallel_aat.py` an identical
scheduler up to hard-coded paths), together with theorems settling the
frozen claims about it.

Trajectories are modelled as lists of frames; frame payloads are abstract.
Python `range(a, b)` is `List.range' a (b - a)` (half-open), Python dicts
built by repeated assignment are modelled by `collectResults`, and the
filesystem for the worker task is an association list of path/content pairs.
-/

namespace CGBack

/-! ### Batch scheduler (parallel_v2.py lines 98–107) -/

/-- `total_batches = (t_length + batch_size - 1) // batch_size`. -/
def totalBatches (tLength batchSize : Nat) : Nat :=
  (tLength + batchSize - 1) / batchSize

/-- `start_frame = batch * batch_size + 1`. -/
def startFrame (batchSize batch : Nat) : Nat :=
  batch * batchSize + 1

/-- `end_frame = min((batch + 1) * batch_size, t_length)`. -/
def endFrame (tLength batchSize batch : Nat) : Nat :=
  min ((batch + 1) * batchSize) tLength

/-- The frame indices submitted in a batch:
`frame_data = [(i, t[i]) for i in range(start_frame, end_frame)]`,
where Python `range` excludes `end_frame`. -/
def batchIndices (tLength batchSize batch : Nat) : List Nat :=
  List.range' (startFrame batchSize batch)
    (endFrame tLength batchSize batch - startFrame batchSize batch)

/-- All frame indices submitted across the whole run. -/
def coverage (tLength batchSize : Nat) : List Nat :=
  (List.range (totalBatches tLength batchSize)).flatMap
    (batchIndices tLength batchSize)

/-! ### Segment-file naming and batch chaining (parallel_v2.py lines 121–146) -/

/-- `batch_filename = f'rebuilt_{input_base}_{start_frame}_{end_frame}.dcd'`. -/
def batchFilename (inputBase : String) (tLength batchSize batch : Nat) : String :=
  "rebuilt_" ++ inputBase ++ "_" ++ toString (startFrame batchSize batch)
    ++ "_" ++ toString (endFrame tLength batchSize batch) ++ ".dcd"

/-- `prev_batch_file = f'rebuilt_{input_base}_{prev_start}_{prev_end}.dcd'` with
`prev_start = (batch - 1) * batch_size + 1` and
`prev_end = min(batch * batch_size, t_length)`. -/
def prevBatchFile (inputBase : String) (tLength batchSize batch : Nat) : String :=
  "rebuilt_" ++ inputBase ++ "_" ++ toString ((batch - 1) * batchSize + 1)
    ++ "_" ++ toString (min (batch * batchSize) tLength) ++ ".dcd"

/-- Where a batch's starting trajectory comes from. -/
inductive BaseSource where
  | reference : BaseSource
  | loadFile : String → BaseSource
deriving DecidableEq, Repr

/-- `if batch == 0: batch_traj = t_new  else: batch_traj = md.load(prev_batch_file, ...)`. -/
def batchBase (inputBase : String) (tLength batchSize batch : Nat) : BaseSource :=
  if batch = 0 then BaseSource.reference
  else BaseSource.loadFile (prevBatchFile inputBase tLength batchSize batch)

/-- The segment files saved by the run, one per loop iteration
(`batch_traj.save_dcd(batch_filename)` executes once per batch). -/
def segmentFiles (inputBase : String) (tLength batchSize : Nat) : List String :=
  (List.range (totalBatches tLength batchSize)).map
    (batchFilename inputBase tLength batchSize)

/-! ### Result collection (parallel_v2.py lines 114–118)

`processed_frames = {}` is populated by `processed_frames[result[0]] = result[1]`
as futures complete; the completion sequence is a list of (frameIndex, structure)
pairs and later assignments overwrite earlier ones. -/

/-- The dictionary built by the collection loop, as a lookup function:
`rs` is the sequence of completed results in completion order, and each
element overwrites the key it carries. -/
def collectResults {α : Type} (rs : List (Nat × α)) : Nat → Option α :=
  rs.foldl (fun m p => fun k => if k = p.1 then some p.2 else m k) (fun _ => none)

/-! ### Batch assembly (parallel_v2.py lines 132–138)

```
for i in range(start_frame, end_frame):
    if i in processed_frames:
        batch_traj = batch_traj + processed_frames[i]
    else:
        print(f"Warning: Missing frame {i} in batch ...")
```
The result is the pair (assembled trajectory, warned frame indices). -/

/-- One iteration of the assembly loop: append the frame when present,
record a warning otherwise. -/
def assembleStep {α : Type} (lookup : Nat → Option α) (acc : List α × List Nat)
    (i : Nat) : List α × List Nat :=
  match lookup i with
  | some fr => (acc.1 ++ [fr], acc.2)
  | none => (acc.1, acc.2 ++ [i])

/-- The assembly loop over `range(start_frame, end_frame)`, starting from the
batch's base trajectory. -/
def assembleBatch {α : Type} (base : List α) (lookup : Nat → Option α)
    (s e : Nat) : List α × List Nat :=
  (List.range' s (e - s)).foldl (assembleStep lookup) (base, [])

/-- A completed-results map with one frame's result withheld. -/
def withhold {α : Type} (j : Nat) (lookup : Nat → Option α) : Nat → Option α :=
  fun i => if i = j then none else lookup i

/-- The completed-results map of a fully successful batch: every submitted
index `i ∈ [start_frame, end_frame)` is present (the structure payload is
modelled by the frame index itself). -/
def fullLookup (tLength batchSize batch : Nat) : Nat → Option Nat :=
  fun i =>
    if startFrame batchSize batch ≤ i ∧ i < endFrame tLength batchSize batch
    then some i else none

/-- The trajectory persisted by batch `b` when every task succeeds: batch 0
starts from the reference trajectory `[0]` (the single reconstructed frame 0);
batch `b+1` starts from batch `b`'s persisted segment. -/
def segTraj (tLength batchSize : Nat) : Nat → List Nat
  | 0 => (assembleBatch [0] (fullLookup tLength batchSize 0)
        (startFrame batchSize 0) (endFrame tLength batchSize 0)).1
  | b + 1 => (assembleBatch (segTraj tLength batchSize b)
        (fullLookup tLength batchSize (b + 1))
        (startFrame batchSize (b + 1)) (endFrame tLength batchSize (b + 1))).1

/-! ### Worker task `process_frame` (parallel_v2.py lines 22–52)

The filesystem is an association list of (path, content) pairs; `γ` is the
abstract type of structure-file contents. `cgback` is an opaque external
tool: the model takes as a parameter the output-file content it produces
(`none` when it writes no output file); its exit status is never checked by
the code, so it does not appear. `md.load` fails exactly when the file to
load is absent; a failure propagates as an exception (`Except.error`),
skipping the cleanup. -/

/-- A filesystem: newest writes are consed on the front. -/
abbrev FS (γ : Type) := List (String × γ)

/-- `os.path.exists`. -/
def fileExists {γ : Type} (fs : FS γ) (name : String) : Bool :=
  fs.any (fun p => p.1 = name)

/-- Writing a file (`save_pdb`, or cgback writing its `-o` target). -/
def writeFile {γ : Type} (fs : FS γ) (name : String) (c : γ) : FS γ :=
  (name, c) :: fs

/-- `os.remove`. -/
def removeFile {γ : Type} (fs : FS γ) (name : String) : FS γ :=
  fs.filter (fun p => p.1 ≠ name)

/-- `md.load`: the content of the named file, if present. -/
def readFile {γ : Type} (fs : FS γ) (name : String) : Option γ :=
  (fs.find? (fun p => p.1 = name)).map Prod.snd

/-- `frame_filename = f'frames/frame{frame_idx}_proc.pdb'`. -/
def frameFilename (i : Nat) : String :=
  "frames/frame" ++ toString i ++ "_proc.pdb"

/-- `output_filename = f'outputs/out{frame_idx}_proc.pdb'`. -/
def outputFilename (i : Nat) : String :=
  "outputs/out" ++ toString i ++ "_proc.pdb"

/-- `if os.path.exists(f): os.remove(f)`. -/
def removeIfExists {γ : Type} (fs : FS γ) (n : String) : FS γ :=
  if fileExists fs n then removeFile fs n else fs

/-- The staging filesystem after `frame_traj.save_pdb(frame_filename)` and
the `subprocess.run(cgback ...)` invocation: the input frame file is
written, then cgback writes its `-o` target when it produces one (`cgOut`
is the output content cgback produces, `none` when it writes nothing; its
exit status is never consulted by the code). -/
def stagedFS {γ : Type} (frameData : Nat × γ) (cgOut : Option γ)
    (fs : FS γ) : FS γ :=
  match cgOut with
  | some c => writeFile (writeFile fs (frameFilename frameData.1) frameData.2)
      (outputFilename frameData.1) c
  | none => writeFile fs (frameFilename frameData.1) frameData.2

/-- `process_frame(frame_data, gpu)`: save the frame, run cgback
(`stagedFS`), load the output, run the two `if exists: remove` cleanup
checks, and return `(frame_idx, frame_result)` together with the final
filesystem. When the output cannot be loaded the exception propagates
(`Except.error` carries the filesystem at that point) and the cleanup does
not run. -/
def processFrame {γ : Type} (frameData : Nat × γ) (cgOut : Option γ)
    (fs : FS γ) : Except (FS γ) ((Nat × γ) × FS γ) :=
  match readFile (stagedFS frameData cgOut fs) (outputFilename frameData.1) with
  | none => Except.error (stagedFS frameData cgOut fs)
  | some frame_result =>
    Except.ok ((frameData.1, frame_result),
      removeIfExists
        (removeIfExists (stagedFS frameData cgOut fs) (frameFilename frameData.1))
        (outputFilename frameData.1))

/-! ### Startup directory clear (parallel_v2.py lines 68–72)

```
for f in os.listdir('frames'):
    os.remove(os.path.join('frames', f))
for f in os.listdir('outputs'):
    os.remove(os.path.join('outputs', f))
```
A staging directory is `Option (List String)`: `none` when the directory
does not exist, in which case `os.listdir` raises `FileNotFoundError`. -/

/-- `os.listdir`. -/
def listdir : Option (List String) → Except String (List String)
  | none => Except.error "FileNotFoundError"
  | some files => Except.ok files

/-- The `for f in os.listdir(d): os.remove(...)` loop body applied to a
directory's contents: remove each listed name in turn. -/
def removeEach (names : List String) (dir : List String) : List String :=
  names.foldl (fun acc f => acc.filter (fun x => x ≠ f)) dir

/-- The startup clear step over the two staging directories; returns the
directories' contents afterwards, or the propagated exception. -/
def clearStagingDirs (frames outputs : Option (List String)) :
    Except String (List String × List String) :=
  match listdir frames with
  | Except.error e => Except.error e
  | Except.ok fframes =>
    match listdir outputs with
    | Except.error e => Except.error e
    | Except.ok foutputs =>
      Except.ok (removeEach fframes fframes, removeEach foutputs foutputs)

/-! ### Helper lemmas -/

theorem foldl_assembleStep {α : Type} (lookup : Nat → Option α) (idxs : List Nat)
    (fs : List α) (ws : List Nat) :
    idxs.foldl (assembleStep lookup) (fs, ws)
      = (fs ++ idxs.filterMap lookup,
         ws ++ idxs.filter (fun i => (lookup i).isNone)) := by
  induction idxs generalizing fs ws with
  | nil => simp
  | cons i rest ih =>
    simp only [List.foldl_cons]
    cases h : lookup i with
    | some fr => simp [assembleStep, h, ih]
    | none => simp [assembleStep, h, ih]

theorem assembleBatch_eq {α : Type} (base : List α) (lookup : Nat → Option α)
    (s e : Nat) :
    assembleBatch base lookup s e
      = (base ++ (List.range' s (e - s)).filterMap lookup,
         (List.range' s (e - s)).filter (fun i => (lookup i).isNone)) := by
  simpa [assembleBatch] using foldl_assembleStep lookup (List.range' s (e - s)) base []

theorem length_filterMap_add_filter {α β : Type} (f : α → Option β) (l : List α) :
    (l.filterMap f).length + (l.filter (fun a => (f a).isNone)).length = l.length := by
  induction l with
  | nil => rfl
  | cons a l ih => cases h : f a <;> simp [h] <;> omega

theorem collectResults_foldl {γ : Type} (rs : List (Nat × γ)) (m : Nat → Option γ)
    (k : Nat) :
    (rs.foldl (fun m p => fun k' => if k' = p.1 then some p.2 else m k') m) k
      = ((rs.reverse.find? (fun p => p.1 = k)).map Prod.snd).or (m k) := by
  induction rs generalizing m with
  | nil => simp
  | cons p rs ih =>
    simp only [List.foldl_cons, List.reverse_cons, List.find?_append, ih]
    cases h : rs.reverse.find? (fun q => decide (q.1 = k)) with
    | some q => simp [Option.or]
    | none =>
      by_cases hk : k = p.1
      · simp [Option.or, hk, List.find?_cons]
      · simp [Option.or, hk, List.find?_cons, Ne.symm hk]

theorem collectResults_eq_find {γ : Type} (rs : List (Nat × γ)) (k : Nat) :
    collectResults rs k = (rs.reverse.find? (fun p => p.1 = k)).map Prod.snd := by
  rw [collectResults, collectResults_foldl]
  cases rs.reverse.find? (fun p => p.1 = k) <;> simp [Option.or]

theorem collectResults_eq_none {γ : Type} (rs : List (Nat × γ)) (k : Nat) :
    collectResults rs k = none ↔ k ∉ rs.map Prod.fst := by
  rw [collectResults_eq_find, Option.map_eq_none', List.find?_eq_none]
  constructor
  · intro h hk
    rcases List.mem_map.mp hk with ⟨p, hp, rfl⟩
    exact absurd (by simp : decide (p.1 = p.1) = true)
      (h p (List.mem_reverse.mpr hp))
  · intro h p hp hpk
    exact h (List.mem_map.mpr ⟨p, List.mem_reverse.mp hp, by simpa using hpk⟩)

theorem collectResults_eq_some {γ : Type} {rs : List (Nat × γ)}
    (hnd : (rs.map Prod.fst).Nodup) (k : Nat) (v : γ) :
    collectResults rs k = some v ↔ (k, v) ∈ rs := by
  rw [collectResults_eq_find]
  constructor
  · intro h
    rcases Option.map_eq_some.mp h with ⟨q, hq, rfl⟩
    have hmem : q ∈ rs := List.mem_reverse.mp (List.mem_of_find?_eq_some hq)
    have hkey : q.1 = k := by simpa using List.find?_some hq
    have : q = (k, q.2) := by rw [← hkey]
    rwa [← this]
  · intro h
    have hsome : (rs.reverse.find? (fun p => p.1 = k)).isSome := by
      rw [List.find?_isSome]
      exact ⟨(k, v), List.mem_reverse.mpr h, by simp⟩
    rcases Option.isSome_iff_exists.mp hsome with ⟨q, hq⟩
    have hmem : q ∈ rs := List.mem_reverse.mp (List.mem_of_find?_eq_some hq)
    have hkey : q.1 = k := by simpa using List.find?_some hq
    have : q = (k, v) :=
      List.inj_on_of_nodup_map hnd hmem h (by simp [hkey])
    rw [hq, this]
    rfl

theorem collectResults_perm {γ : Type} {rs rs' : List (Nat × γ)}
    (hperm : rs.Perm rs') (hnd : (rs.map Prod.fst).Nodup) (k : Nat) :
    collectResults rs k = collectResults rs' k := by
  have hnd' : (rs'.map Prod.fst).Nodup := ((hperm.map Prod.fst).nodup_iff).mp hnd
  cases h : collectResults rs k with
  | some v =>
    have : (k, v) ∈ rs := (collectResults_eq_some hnd k v).mp h
    exact ((collectResults_eq_some hnd' k v).mpr (hperm.mem_iff.mp this)).symm
  | none =>
    have : k ∉ rs.map Prod.fst := (collectResults_eq_none rs k).mp h
    have : k ∉ rs'.map Prod.fst := fun hk =>
      this ((hperm.map Prod.fst).mem_iff.mpr hk)
    exact ((collectResults_eq_none rs' k).mpr this).symm

theorem filter_eq_singleton_of_nodup {l : List Nat} {j : Nat}
    (hnd : l.Nodup) (hj : j ∈ l) :
    l.filter (fun i => i = j) = [j] := by
  induction l with
  | nil => cases hj
  | cons a l ih =>
    rcases List.nodup_cons.mp hnd with ⟨ha, hl⟩
    rcases List.mem_cons.mp hj with rfl | hj'
    · have hfil : l.filter (fun i => i = j) = [] := by
        rw [List.filter_eq_nil_iff]
        intro b hb
        simp only [decide_eq_true_eq]
        rintro rfl
        exact ha hb
      simp [hfil]
    · have hne : a ≠ j := by rintro rfl; exact ha hj'
      simp [hne, ih hl hj']

theorem filterMap_withhold {α : Type} (j : Nat) (f : Nat → Option α)
    (l : List Nat) :
    l.filterMap (withhold j f) = (l.filter (fun i => i ≠ j)).filterMap f := by
  induction l with
  | nil => rfl
  | cons a l ih =>
    by_cases h : a = j
    · subst h
      simp [withhold, ih, List.filterMap_cons]
    · cases hf : f a <;>
      simp [withhold, h, ih, List.filterMap_cons, hf]

theorem mem_removeEach {names d : List String} {x : String}
    (hx : x ∈ removeEach names d) : x ∈ d ∧ x ∉ names := by
  induction names generalizing d with
  | nil => exact ⟨hx, by simp⟩
  | cons n ns ih =>
    have hx' : x ∈ removeEach ns (d.filter (fun y => y ≠ n)) := hx
    rcases ih hx' with ⟨hmem, hns⟩
    rcases List.mem_filter.mp hmem with ⟨hd, hne⟩
    refine ⟨hd, ?_⟩
    simp only [List.mem_cons, not_or]
    exact ⟨by simpa using hne, hns⟩

theorem removeEach_self (l : List String) : removeEach l l = [] := by
  rw [List.eq_nil_iff_forall_not_mem]
  intro x hx
  rcases mem_removeEach hx with ⟨h1, h2⟩
  exact h2 h1

theorem fileExists_removeFile_self {γ : Type} (fs : FS γ) (n : String) :
    fileExists (removeFile fs n) n = false := by
  rw [← Bool.not_eq_true, fileExists, List.any_eq_true]
  rintro ⟨p, hp, hpn⟩
  rcases List.mem_filter.mp hp with ⟨_, hne⟩
  have h1 : p.1 ≠ n := by simpa using hne
  have h2 : p.1 = n := by simpa using hpn
  exact h1 h2

theorem fileExists_removeFile_of_absent {γ : Type} {fs : FS γ} {m : String}
    (h : fileExists fs m = false) (n : String) :
    fileExists (removeFile fs n) m = false := by
  rw [← Bool.not_eq_true, fileExists, List.any_eq_true]
  rintro ⟨p, hp, hpm⟩
  rw [← Bool.not_eq_true, fileExists, List.any_eq_true] at h
  exact h ⟨p, (List.mem_filter.mp hp).1, hpm⟩

theorem fileExists_removeIfExists_self {γ : Type} (fs : FS γ) (n : String) :
    fileExists (removeIfExists fs n) n = false := by
  rw [removeIfExists]
  by_cases hc : fileExists fs n
  · rw [if_pos hc]
    exact fileExists_removeFile_self fs n
  · rw [if_neg hc]
    exact Bool.eq_false_iff.mpr hc

theorem fileExists_removeIfExists_of_absent {γ : Type} {fs : FS γ} {m : String}
    (h : fileExists fs m = false) (n : String) :
    fileExists (removeIfExists fs n) m = false := by
  rw [removeIfExists]
  by_cases hc : fileExists fs n
  · rw [if_pos hc]
    exact fileExists_removeFile_of_absent h n
  · rw [if_neg hc]
    exact h

/-- Shared helper: when the completed-results map contains every index of
the submitted range `[s, e)`, the assembly loop appends exactly `e - s`
frames to the base trajectory and logs no warning. -/
theorem assembleBatch_full {α : Type} (base : List α) (lookup : Nat → Option α)
    (s e : Nat) (hfull : ∀ i, s ≤ i → i < e → (lookup i).isSome) :
    (assembleBatch base lookup s e).1.length = base.length + (e - s) ∧
    (assembleBatch base lookup s e).2 = [] := by
  have hnone : (List.range' s (e - s)).filter (fun i => (lookup i).isNone) = [] := by
    rw [List.filter_eq_nil_iff]
    intro i hi
    rw [List.mem_range'_1] at hi
    have hs : (lookup i).isSome := hfull i hi.1 (by omega)
    cases hlk : lookup i with
    | none => rw [hlk] at hs; cases hs
    | some v => simp
  have hlen := length_filterMap_add_filter lookup (List.range' s (e - s))
  rw [hnone] at hlen
  simp only [List.length_nil, Nat.add_zero, List.length_range'] at hlen
  constructor
  · rw [assembleBatch_eq]
    simp [hlen]
  · rw [assembleBatch_eq]
    exact hnone

/-! ### Claim theorems -/

/-- C1: the claim says the scheduler produces ceil((N−1)/B) batches whose
ranges contiguously cover [1, N−1]. Evaluating the embedded scheduler at
N = 7 frames, batch size B = 3: the code produces `(7 + 3 - 1) / 3 = 3`
batches (the claim's ceil((7−1)/3) is `(6 + 3 - 1) / 3 = 2`), and the
submitted indices across all batches are [1, 2, 4, 5] — frames 3 and 6
(the multiples of B below N) are never submitted, so the union is not
[1, 6] and is not contiguous. This contradicts the code's own prints
("Processing {t_length-1} frames", "frames {start_frame}-{end_frame}"),
which promise inclusive ranges covering every remaining frame. -/
theorem c1_scheduler_skips_frames :
    totalBatches 7 3 = 3 ∧ (6 + 3 - 1) / 3 = 2 ∧
    coverage 7 3 = [1, 2, 4, 5] ∧
    3 ∉ coverage 7 3 ∧ 6 ∉ coverage 7 3 := by
  decide

/-- C3 counterexample: with 7 frames and batch size 3 the batches do NOT
cover [1,3], [4,6], [7,7]: batch 0 submits only [1, 2], and frame 3 is
covered by no batch at all. -/
theorem c3_counterexample :
    batchIndices 7 3 0 = [1, 2] ∧ 3 ∉ coverage 7 3 := by
  decide

/-- C3 (amended): with 7 frames and batch size 3 the run executes 3 batches
whose nominal (printed and file-name) ranges are (1,3), (4,6), (7,7), but
whose actually submitted frame sets are [1,2], [4,5], [] (Python `range`
excludes `end_frame`); exactly 3 distinct segment files are produced, named
by the nominal ranges; and batch 2's starting trajectory is loaded from
batch 1's persisted segment file, not recomputed. -/
theorem c3_amended_scenario :
    totalBatches 7 3 = 3 ∧
    (List.range 3).map (fun b => (startFrame 3 b, endFrame 7 3 b))
      = [(1, 3), (4, 6), (7, 7)] ∧
    (List.range 3).map (batchIndices 7 3) = [[1, 2], [4, 5], []] ∧
    segmentFiles "traj" 7 3
      = ["rebuilt_traj_1_3.dcd", "rebuilt_traj_4_6.dcd", "rebuilt_traj_7_7.dcd"] ∧
    (segmentFiles "traj" 7 3).length = 3 ∧
    (segmentFiles "traj" 7 3).Nodup ∧
    batchBase "traj" 7 3 2 = BaseSource.loadFile (batchFilename "traj" 7 3 1) := by
  decide

/-- C4 counterexample: at N = 7, B = 3, with every task of batch 1
succeeding, the segment persisted by batch 1 is [0, 1, 2, 4, 5]
(5 frames, because the batch's base is batch 0's whole segment), while the
batch's nominal range [4, 6] has length 3 (and even the actually submitted
range has length 2) — so the assembled segment's frame count does not equal
the batch's range length. -/
theorem c4_counterexample :
    segTraj 7 3 1 = [0, 1, 2, 4, 5] ∧
    (segTraj 7 3 1).length = 5 ∧
    endFrame 7 3 1 - startFrame 3 1 + 1 = 3 ∧
    endFrame 7 3 1 - startFrame 3 1 = 2 ∧
    (5 : Nat) ≠ 3 := by
  decide

/-- C8 counterexample: the segment-file name does not embed the last frame
index actually covered by the batch: at N = 7, B = 3, batch 0's file is
named `rebuilt_X_1_3.dcd` although the batch actually covers only frames
[1, 2] (its last covered index is 2, not 3). -/
theorem c8_counterexample :
    batchFilename "X" 7 3 0 = "rebuilt_X_1_3.dcd" ∧
    batchIndices 7 3 0 = [1, 2] ∧
    (batchIndices 7 3 0).getLast? = some 2 := by
  decide

/-- C2: within a batch, the frames appended to the output trajectory depend
only on the contents of the completed-results dictionary, not on the order
in which results were collected (any permutation of the completion sequence
yields the same assembled output), and the appended frames are the
dictionary's values taken along the strictly ascending list of present
frame indices. -/
theorem c2_assembly_order_independent {α : Type} (base : List α)
    (rs rs' : List (Nat × α)) (s e : Nat)
    (hperm : rs.Perm rs') (hnd : (rs.map Prod.fst).Nodup) :
    assembleBatch base (collectResults rs') s e
      = assembleBatch base (collectResults rs) s e ∧
    (assembleBatch base (collectResults rs) s e).1
      = base ++ (List.range' s (e - s)).filterMap (collectResults rs) ∧
    List.Sorted (· < ·)
      ((List.range' s (e - s)).filter
        (fun i => (collectResults rs i).isSome)) := by
  have hfun : collectResults rs' = collectResults rs := by
    funext k
    exact (collectResults_perm hperm hnd k).symm
  refine ⟨by rw [hfun], ?_, ?_⟩
  · rw [assembleBatch_eq]
  · exact (List.pairwise_lt_range' s (e - s)).filter
      (fun i => (collectResults rs i).isSome)

/-- Witness for C2 at a concrete input: two results completing out of order. -/
theorem c2_witness :
    ([((1 : Nat), (11 : Nat)), (2, 12)]).Perm [(2, 12), (1, 11)] ∧
    (([((1 : Nat), (11 : Nat)), (2, 12)]).map Prod.fst).Nodup ∧
    (assembleBatch [(0 : Nat)] (collectResults [(2, 12), (1, 11)]) 1 3
        = assembleBatch [(0 : Nat)] (collectResults [(1, 11), (2, 12)]) 1 3 ∧
      (assembleBatch [(0 : Nat)] (collectResults [(1, 11), (2, 12)]) 1 3).1
        = [(0 : Nat)]
            ++ (List.range' 1 (3 - 1)).filterMap (collectResults [(1, 11), (2, 12)]) ∧
      List.Sorted (· < ·)
        ((List.range' 1 (3 - 1)).filter
          (fun i => (collectResults [((1 : Nat), (11 : Nat)), (2, 12)] i).isSome))) :=
  ⟨by decide, by decide,
    c2_assembly_order_independent [(0 : Nat)] [(1, 11), (2, 12)] [(2, 12), (1, 11)]
      1 3 (by decide) (by decide)⟩

/-- C4 (amended): if the completed-results map contains every index of the
batch's actually submitted range `[start_frame, end_frame)`, then the
assembled segment's frame count equals the frame count of the batch's
starting trajectory plus `end_frame - start_frame` (the submitted range
length), and no warning is logged. (The count is not the nominal range
length: segment files are cumulative, since each batch's base is the whole
previous segment — see the counterexample.) -/
theorem c4_amended_full_batch {α : Type} (base : List α)
    (lookup : Nat → Option α) (s e : Nat)
    (hfull : ∀ i, s ≤ i → i < e → (lookup i).isSome) :
    (assembleBatch base lookup s e).1.length = base.length + (e - s) ∧
    (assembleBatch base lookup s e).2 = [] :=
  assembleBatch_full base lookup s e hfull

/-- Witness for C4 (amended) at a concrete fully successful batch. -/
theorem c4_witness :
    (∀ i : Nat, 1 ≤ i → i < 3 →
      (collectResults [((1 : Nat), (11 : Nat)), (2, 12)] i).isSome) ∧
    ((assembleBatch [(0 : Nat)]
        (collectResults [((1 : Nat), (11 : Nat)), (2, 12)]) 1 3).1.length
      = [(0 : Nat)].length + (3 - 1) ∧
     (assembleBatch [(0 : Nat)]
        (collectResults [((1 : Nat), (11 : Nat)), (2, 12)]) 1 3).2 = []) := by
  have hfull : ∀ i : Nat, 1 ≤ i → i < 3 →
      (collectResults [((1 : Nat), (11 : Nat)), (2, 12)] i).isSome := by
    intro i h1 h2
    interval_cases i <;> decide
  exact ⟨hfull, c4_amended_full_batch [(0 : Nat)] _ 1 3 hfull⟩

/-- C5: withholding exactly one submitted frame's result from an otherwise
complete batch makes the assembled trajectory exactly one frame shorter,
produces exactly one warning naming that frame index, and drops exactly
that frame from the output (the appended frames are the results at every
submitted index other than the withheld one); the warning list of the
complete batch is empty, and there is no retry — the single assembly pass
is the only consumer of the results map. -/
theorem c5_withheld_frame {α : Type} (base : List α) (lookup : Nat → Option α)
    (s e j : Nat) (hj1 : s ≤ j) (hj2 : j < e)
    (hfull : ∀ i, s ≤ i → i < e → (lookup i).isSome) :
    (assembleBatch base (withhold j lookup) s e).1.length + 1
      = (assembleBatch base lookup s e).1.length ∧
    (assembleBatch base (withhold j lookup) s e).2 = [j] ∧
    (assembleBatch base lookup s e).2 = [] ∧
    (assembleBatch base (withhold j lookup) s e).1
      = base ++ ((List.range' s (e - s)).filter (fun i => i ≠ j)).filterMap lookup := by
  have hmemj : j ∈ List.range' s (e - s) :=
    List.mem_range'_1.mpr ⟨hj1, by omega⟩
  have hwarn : (List.range' s (e - s)).filter
      (fun i => ((withhold j lookup) i).isNone) = [j] := by
    rw [List.filter_congr (q := fun i => i = j) ?_]
    · exact filter_eq_singleton_of_nodup (List.nodup_range' s (e - s)) hmemj
    · intro i hi
      rw [List.mem_range'_1] at hi
      by_cases h : i = j
      · subst h; simp [withhold]
      · have hs : (lookup i).isSome := hfull i hi.1 (by omega)
        cases hlk : lookup i with
        | none => rw [hlk] at hs; cases hs
        | some v => simp [withhold, h, hlk]
  have hfulllen := assembleBatch_full base lookup s e hfull
  have hwlen := length_filterMap_add_filter (withhold j lookup) (List.range' s (e - s))
  rw [hwarn] at hwlen
  simp only [List.length_cons, List.length_nil, List.length_range'] at hwlen
  refine ⟨?_, ?_, hfulllen.2, ?_⟩
  · rw [assembleBatch_eq, hfulllen.1]
    simp only [List.length_append]
    omega
  · rw [assembleBatch_eq]
    exact hwarn
  · rw [assembleBatch_eq, filterMap_withhold]

/-- Witness for C5 at a concrete batch with frame 2's result withheld. -/
theorem c5_witness :
    (1 ≤ 2) ∧ (2 < 3) ∧
    (∀ i : Nat, 1 ≤ i → i < 3 →
      (collectResults [((1 : Nat), (11 : Nat)), (2, 12)] i).isSome) ∧
    ((assembleBatch [(0 : Nat)]
        (withhold 2 (collectResults [((1 : Nat), (11 : Nat)), (2, 12)])) 1 3).1.length + 1
      = (assembleBatch [(0 : Nat)]
          (collectResults [((1 : Nat), (11 : Nat)), (2, 12)]) 1 3).1.length ∧
     (assembleBatch [(0 : Nat)]
        (withhold 2 (collectResults [((1 : Nat), (11 : Nat)), (2, 12)])) 1 3).2 = [2] ∧
     (assembleBatch [(0 : Nat)]
        (collectResults [((1 : Nat), (11 : Nat)), (2, 12)]) 1 3).2 = [] ∧
     (assembleBatch [(0 : Nat)]
        (withhold 2 (collectResults [((1 : Nat), (11 : Nat)), (2, 12)])) 1 3).1
      = [(0 : Nat)] ++ ((List.range' 1 (3 - 1)).filter (fun i => i ≠ 2)).filterMap
          (collectResults [((1 : Nat), (11 : Nat)), (2, 12)])) := by
  have hfull : ∀ i : Nat, 1 ≤ i → i < 3 →
      (collectResults [((1 : Nat), (11 : Nat)), (2, 12)] i).isSome := by
    intro i h1 h2
    interval_cases i <;> decide
  exact ⟨by decide, by decide, hfull,
    c5_withheld_frame [(0 : Nat)] _ 1 3 2 (by decide) (by decide) hfull⟩

/-- C6: whenever `process_frame` returns (normally), both of that frame
index's staging files — the input structure file and the output structure
file — are absent from the final filesystem, for every starting filesystem
and for every behaviour of the external reconstruction tool that lets the
output be loaded (its exit status is never consulted and any output content,
usable or garbage, is accepted). -/
theorem c6_cleanup_unconditional {γ : Type} (frameData : Nat × γ)
    (cgOut : Option γ) (fs : FS γ) (out : Nat × γ) (fs' : FS γ)
    (h : processFrame frameData cgOut fs = Except.ok (out, fs')) :
    fileExists fs' (frameFilename frameData.1) = false ∧
    fileExists fs' (outputFilename frameData.1) = false := by
  unfold processFrame at h
  cases hr : readFile (stagedFS frameData cgOut fs) (outputFilename frameData.1) with
  | none => rw [hr] at h; cases h
  | some v =>
    rw [hr] at h
    simp only [Except.ok.injEq, Prod.mk.injEq] at h
    obtain ⟨-, rfl⟩ := h
    have hframe : fileExists
        (removeIfExists (stagedFS frameData cgOut fs) (frameFilename frameData.1))
        (frameFilename frameData.1) = false :=
      fileExists_removeIfExists_self _ _
    exact ⟨fileExists_removeIfExists_of_absent hframe _,
      fileExists_removeIfExists_self _ _⟩

/-- Witness for C6: a concrete successful task run leaves both staging
files absent. -/
theorem c6_witness :
    processFrame ((5 : Nat), (100 : Nat)) (some 200) ([] : FS Nat)
      = Except.ok ((5, 200), ([] : FS Nat)) ∧
    (fileExists ([] : FS Nat) (frameFilename 5) = false ∧
     fileExists ([] : FS Nat) (outputFilename 5) = false) :=
  ⟨rfl, c6_cleanup_unconditional ((5 : Nat), (100 : Nat)) (some 200) [] (5, 200) [] rfl⟩

/-- C7: a batch's starting trajectory is the reference trajectory exactly
for batch 0, and for any batch k > 0 it is loaded from the file whose name
is precisely the segment-file name persisted by batch k − 1. -/
theorem c7_batch_chaining (inputBase : String) (tLength batchSize batch : Nat)
    (hb : 0 < batch) :
    batchBase inputBase tLength batchSize 0 = BaseSource.reference ∧
    batchBase inputBase tLength batchSize batch
      = BaseSource.loadFile (batchFilename inputBase tLength batchSize (batch - 1)) := by
  constructor
  · simp [batchBase]
  · obtain ⟨k, rfl⟩ : ∃ k, batch = k + 1 := ⟨batch - 1, by omega⟩
    simp [batchBase, prevBatchFile, batchFilename, startFrame, endFrame]

/-- Witness for C7 at batch 2 of a 7-frame, batch-size-3 run. -/
theorem c7_witness :
    0 < 2 ∧
    (batchBase "X" 7 3 0 = BaseSource.reference ∧
     batchBase "X" 7 3 2 = BaseSource.loadFile (batchFilename "X" 7 3 (2 - 1))) :=
  ⟨by decide, c7_batch_chaining "X" 7 3 2 (by decide)⟩

/-- C8 (amended): every segment file's name is determined by the input
trajectory's base name and the batch's nominal range (start_frame,
end_frame); for a non-empty batch, start_frame is the first frame index
actually covered, while end_frame is one greater than the last frame index
actually covered (so the name does not embed the last covered index
itself). -/
theorem c8_amended_naming (inputBase : String) (tLength batchSize batch : Nat)
    (hne : startFrame batchSize batch < endFrame tLength batchSize batch) :
    (batchIndices tLength batchSize batch).head?
      = some (startFrame batchSize batch) ∧
    (batchIndices tLength batchSize batch).getLast?
      = some (endFrame tLength batchSize batch - 1) ∧
    batchFilename inputBase tLength batchSize batch
      = "rebuilt_" ++ inputBase ++ "_" ++ toString (startFrame batchSize batch)
        ++ "_" ++ toString (endFrame tLength batchSize batch) ++ ".dcd" := by
  obtain ⟨n, hn⟩ : ∃ n, endFrame tLength batchSize batch
      - startFrame batchSize batch = n + 1 :=
    ⟨endFrame tLength batchSize batch - startFrame batchSize batch - 1, by omega⟩
  refine ⟨?_, ?_, rfl⟩
  · rw [batchIndices, hn, List.range'_succ]
    rfl
  · rw [batchIndices, hn, List.range'_concat, List.getLast?_concat]
    congr 1
    omega

/-- Witness for C8 (amended) at batch 0 of a 7-frame, batch-size-3 run. -/
theorem c8_witness :
    startFrame 3 0 < endFrame 7 3 0 ∧
    ((batchIndices 7 3 0).head? = some (startFrame 3 0) ∧
     (batchIndices 7 3 0).getLast? = some (endFrame 7 3 0 - 1) ∧
     batchFilename "X" 7 3 0
      = "rebuilt_" ++ "X" ++ "_" ++ toString (startFrame 3 0)
        ++ "_" ++ toString (endFrame 7 3 0) ++ ".dcd") :=
  ⟨by decide, c8_amended_naming "X" 7 3 0 (by decide)⟩

/-- C9: the startup clear step empties both staging directories whenever
both exist (every listed file is removed), and raises `FileNotFoundError`
whenever either staging directory does not exist. -/
theorem c9_clear_staging :
    (∀ fframes foutputs : List String,
      clearStagingDirs (some fframes) (some foutputs) = Except.ok ([], [])) ∧
    (∀ d : Option (List String),
      clearStagingDirs none d = Except.error "FileNotFoundError") ∧
    (∀ fframes : List String,
      clearStagingDirs (some fframes) none = Except.error "FileNotFoundError") := by
  refine ⟨?_, ?_, ?_⟩
  · intro fframes foutputs
    simp [clearStagingDirs, listdir, removeEach_self]
  · intro d
    rfl
  · intro fframes
    rfl

/-- C10: a task that completes normally returns a pair whose first
component is its submitted frame index; consequently, for any set of
completed per-index results collected in any order, the completed-results
dictionary maps exactly the completed indices, each to that index's own
reconstructed structure. -/
theorem c10_results_keyed_by_index {γ : Type} (frameData : Nat × γ)
    (cgOut : Option γ) (fs fs' : FS γ) (out : Nat × γ)
    (g : Nat → γ) (done order : List Nat) (j : Nat)
    (hok : processFrame frameData cgOut fs = Except.ok (out, fs'))
    (hperm : order.Perm done) (hnd : done.Nodup) :
    out.1 = frameData.1 ∧
    collectResults (order.map (fun i => (i, g i))) j
      = if j ∈ done then some (g j) else none := by
  constructor
  · unfold processFrame at hok
    cases hr : readFile (stagedFS frameData cgOut fs) (outputFilename frameData.1) with
    | none => rw [hr] at hok; cases hok
    | some v =>
      rw [hr] at hok
      simp only [Except.ok.injEq, Prod.mk.injEq] at hok
      rw [← hok.1]
  · have hkeys : (order.map (fun i => (i, g i))).map Prod.fst = order := by
      rw [List.map_map]
      exact List.map_id'' (fun _ => rfl) order
    have hndo : order.Nodup := (hperm.nodup_iff).mpr hnd
    have hndk : ((order.map (fun i => (i, g i))).map Prod.fst).Nodup := by
      rw [hkeys]; exact hndo
    by_cases hj : j ∈ done
    · rw [if_pos hj]
      exact (collectResults_eq_some hndk j (g j)).mpr
        (List.mem_map.mpr ⟨j, hperm.mem_iff.mpr hj, rfl⟩)
    · rw [if_neg hj]
      refine (collectResults_eq_none _ j).mpr ?_
      rw [hkeys]
      exact fun hmem => hj (hperm.mem_iff.mp hmem)

/-- Witness for C10: a concrete completed task and a two-task batch
collected out of order. -/
theorem c10_witness :
    processFrame ((5 : Nat), (100 : Nat)) (some 200) ([] : FS Nat)
      = Except.ok ((5, 200), ([] : FS Nat)) ∧
    ([2, 1] : List Nat).Perm [1, 2] ∧
    ([1, 2] : List Nat).Nodup ∧
    (((5 : Nat), (200 : Nat)).1 = ((5 : Nat), (100 : Nat)).1 ∧
     collectResults (([2, 1] : List Nat).map (fun i => (i, i * 10))) 1
      = if 1 ∈ ([1, 2] : List Nat) then some (1 * 10) else none) :=
  ⟨rfl, by decide, by decide,
    c10_results_keyed_by_index ((5 : Nat), (100 : Nat)) (some 200) [] []
      (5, 200) (fun i => i * 10) [1, 2] [2, 1] 1 rfl (by decide) (by decide)⟩

end CGBack
